import Mathlib

/-!
Verification of the derby race-lifecycle and settlement engine.

This development gives a shallow embedding, in Lean, of the financial and
simulation core of the derby bot:

* `simulate_race` (src/derby/logic.py) together with the exact pseudo-random
  number generator it relies on: CPython's `random.Random`, i.e. the
  MT19937 Mersenne Twister with CPython's `init_by_array` seeding, and the
  `shuffle` / `choice` / `_randbelow_with_getrandbits` algorithms built on it.
* `calculate_odds` (src/derby/logic.py), with division modelled as a guarded
  operation so that "no division by zero" is expressible.
* `resolve_payouts` (src/derby/logic.py) and the `race/bet` and `wallet`
  commands (src/cogs/derby.py) over an explicit database-state model.
  Each `session.commit()` of the source is modelled by recording a snapshot
  of the database state, so claims about what is durably committed (and
  about atomicity of a commit) can be stated and settled.
* `_stream_commentary` (src/derby/scheduler.py) as a step function over the
  event log, polling race existence before each emission.

Machine integers: the Python layer uses unbounded ints (amounts, balances,
identifiers), modelled as `Int`/`Nat`; the C layer of the Mersenne Twister
uses `uint32_t` words, modelled as `Nat` with explicit reduction modulo
`2 ^ 32`.  The 624-word state array `mt[0..623]` of the generator is encoded
as a single natural number in base `2 ^ 32`, little-endian (`w32get`/`w32set`
read and write the `i`-th 32-bit word); this keeps every update a flat
bignum operation.
-/

/-! ## MT19937: the Mersenne Twister as used by CPython's `random.Random`

Constants and loops follow mt19937ar.c as embedded in CPython's
`_randommodule.c`: `init_genrand`, `init_by_array`, `genrand_uint32`.
-/

/-- Read the 32-bit word `mt[i]` from the base-`2 ^ 32` encoded state. -/
def w32get (a i : Nat) : Nat :=
  (a >>> (32 * i)) % 4294967296

/-- Write the 32-bit word `mt[i] := v` in the base-`2 ^ 32` encoded state. -/
def w32set (a i v : Nat) : Nat :=
  a % (2 ^ (32 * i)) + v * 2 ^ (32 * i) + ((a >>> (32 * (i + 1))) <<< (32 * (i + 1)))

/-- One step of `init_genrand`:
`mt[i] = (1812433253 * (mt[i-1] ^ (mt[i-1] >> 30)) + i) & 0xffffffff`. -/
def igStep (prev i : Nat) : Nat :=
  (1812433253 * (prev ^^^ (prev >>> 30)) + i) % 4294967296

/-- Run `k` on the weak-head-normalised value of `n`: `pseq n k = k n`
(see `pseq_eq`).  It is used to keep intermediate loop states in evaluated
form, so that proofs by evaluation run in bounded stack space. -/
def pseq {α : Type} (n : Nat) (k : Nat → α) : α :=
  match n with
  | 0 => k 0
  | m + 1 => k (m + 1)

/-- The loop of `init_genrand`, filling `mt[i], ..., mt[623]` and carrying
the previous word. -/
def igGo : Nat → Nat → Nat → Nat → Nat
  | acc, _, _, 0 => acc
  | acc, prev, i, fuel + 1 =>
    pseq (igStep prev i) fun x =>
    pseq (w32set acc i x) fun acc1 =>
    igGo acc1 x (i + 1) fuel

/-- `init_genrand(s)`: the 624-word state seeded from a single word. -/
def initGenrand (s : Nat) : Nat :=
  igGo (s % 4294967296) (s % 4294967296) 1 623

/-- First mixing loop body of `init_by_array` at position `i`, key index `j`:
`mt[i] = ((mt[i] ^ ((mt[i-1] ^ (mt[i-1] >> 30)) * 1664525)) + init_key[j] + j)`,
reduced modulo `2 ^ 32`. -/
def ibaStep1 (key : List Nat) (a i j : Nat) : Nat :=
  let prev := w32get a (i - 1)
  let p := ((prev ^^^ (prev >>> 30)) * 1664525) % 4294967296
  w32set a i (((w32get a i ^^^ p) + key.get! j + j) % 4294967296)

/-- First mixing loop of `init_by_array`: `max(N, key_length)` iterations,
with the index wrap `if (i>=N) { mt[0] = mt[N-1]; i=1; }` and cyclic key
index.  Returns the state together with the final position `i`. -/
def ibaLoop1 (key : List Nat) : Nat → Nat → Nat → Nat → Nat × Nat
  | 0, a, i, _ => (a, i)
  | k + 1, a, i, j =>
    pseq (ibaStep1 key a i j) fun a1 =>
    pseq (if j + 1 ≥ key.length then 0 else j + 1) fun j1 =>
    if i + 1 ≥ 624 then
      pseq (w32set a1 0 (w32get a1 623)) fun a2 =>
      ibaLoop1 key k a2 1 j1
    else
      ibaLoop1 key k a1 (i + 1) j1

/-- Second mixing loop body of `init_by_array` at position `i`:
`mt[i] = ((mt[i] ^ ((mt[i-1] ^ (mt[i-1] >> 30)) * 1566083941)) - i)`,
reduced modulo `2 ^ 32` (the subtraction wraps in `uint32_t`). -/
def ibaStep2 (a i : Nat) : Nat :=
  let prev := w32get a (i - 1)
  let p := ((prev ^^^ (prev >>> 30)) * 1566083941) % 4294967296
  w32set a i (((w32get a i ^^^ p) + 4294967296 - i) % 4294967296)

/-- Second mixing loop of `init_by_array`: `N - 1 = 623` iterations with the
same index wrap as the first loop. -/
def ibaLoop2 : Nat → Nat → Nat → Nat
  | 0, a, _ => a
  | k + 1, a, i =>
    pseq (ibaStep2 a i) fun a1 =>
    if i + 1 ≥ 624 then
      pseq (w32set a1 0 (w32get a1 623)) fun a2 =>
      ibaLoop2 k a2 1
    else
      ibaLoop2 k a1 (i + 1)

/-- `init_by_array(init_key, key_length)`: seed from a word array, then force
`mt[0] = 0x80000000` (MSB set, "assuring non-zero initial array"). -/
def initByArray (key : List Nat) : Nat :=
  let st := ibaLoop1 key (max 624 key.length) (initGenrand 19650218) 1 0
  w32set (ibaLoop2 623 st.1 st.2) 0 2147483648

/-- The generator state: the encoded 624-word array and the output index
`mti`. -/
structure MTState where
  mt : Nat
  mti : Nat
deriving Repr, DecidableEq

/-- One position of the "generate N words at one time" twist loop, with the
index arithmetic written modulo `N = 624`; this coincides with the three
sub-loops of `genrand_uint32` in the C source (`mt[kk+M]`, `mt[kk+(M-N)]`,
and the final `mt[M-1]` access are all `mt[(kk + 397) % 624]`, and the
`mag01` table is the conditional on the low bit of `y`). -/
def twistStep (a kk : Nat) : Nat :=
  let y := (w32get a kk &&& 2147483648) ||| (w32get a ((kk + 1) % 624) &&& 2147483647)
  w32set a kk ((w32get a ((kk + 397) % 624)) ^^^ (y >>> 1) ^^^ (if y % 2 = 1 then 2567483615 else 0))

/-- Run the twist at positions `kk, kk+1, ...` for `fuel` steps. -/
def twistGo : Nat → Nat → Nat → Nat
  | a, _, 0 => a
  | a, kk, fuel + 1 =>
    pseq (twistStep a kk) fun a1 =>
    twistGo a1 (kk + 1) fuel

/-- The full regeneration pass over all 624 words. -/
def twist (a : Nat) : Nat :=
  twistGo a 0 624

/-- The MT19937 output tempering. -/
def temper (y0 : Nat) : Nat :=
  let y1 := y0 ^^^ (y0 >>> 11)
  let y2 := y1 ^^^ ((y1 <<< 7) &&& 2636928640)
  let y3 := y2 ^^^ ((y2 <<< 15) &&& 4022730752)
  y3 ^^^ (y3 >>> 18)

/-- `genrand_uint32`: twist when the array is exhausted, then emit the next
tempered word. -/
def genrand (s : MTState) : Nat × MTState :=
  if s.mti ≥ 624 then
    (temper (w32get (twist s.mt) 0), ⟨twist s.mt, 1⟩)
  else
    (temper (w32get s.mt s.mti), ⟨s.mt, s.mti + 1⟩)

/-- CPython `random_seed` key construction helper: split a positive integer
into 32-bit words, little-endian. -/
def seedKeyGo (n fuel : Nat) : List Nat :=
  match fuel with
  | 0 => []
  | fuel + 1 => if n = 0 then [] else n % 4294967296 :: seedKeyGo (n / 4294967296) fuel

/-- The key array CPython derives from a non-negative integer seed (the
absolute value of the seed, split into 32-bit words; zero gives one zero
word). -/
def seedKey (n : Nat) : List Nat :=
  if n = 0 then [0] else seedKeyGo n n

/-- `random.Random(seed)`: the freshly seeded generator state (`mti = N`,
so the first output triggers a twist). -/
def mtSeed (seed : Nat) : MTState :=
  ⟨initByArray (seedKey seed), 624⟩

/-! ## CPython `random.Random` methods used by `simulate_race` -/

/-- `int.bit_length()` on a natural number, by fuelled halving (`n` itself
is enough fuel). -/
def bitLenGo : Nat → Nat → Nat
  | 0, _ => 0
  | fuel + 1, n => if n = 0 then 0 else bitLenGo fuel (n / 2) + 1

/-- `int.bit_length()` on a natural number. -/
def pyBitLength (n : Nat) : Nat :=
  bitLenGo n n

/-- `getrandbits(k)` for `0 < k ≤ 32`: one 32-bit output shifted down. -/
def getrandbits (k : Nat) (s : MTState) : Nat × MTState :=
  let r := genrand s
  (r.1 >>> (32 - k), r.2)

/-- `_randbelow_with_getrandbits(n)`: draw `bit_length n` bits, retry while
the draw is `≥ n`.  The retry loop is fuelled; the Python loop terminates
with probability one but not structurally. -/
def randbelow (n : Nat) : Nat → MTState → Option (Nat × MTState)
  | 0, _ => none
  | fuel + 1, s =>
    let r := getrandbits (pyBitLength n) s
    if r.1 < n then some r else randbelow n fuel r.2

/-- The retry fuel used when evaluating concrete runs. -/
def rbFuel : Nat := 1000

/-- Swap two positions of a list (Python `x[i], x[j] = x[j], x[i]`). -/
def listSwap (x : List Int) (i j : Nat) : List Int :=
  let a := x.get! i
  let b := x.get! j
  (x.set i b).set j a

/-- The loop of `random.shuffle`: `for i in reversed(range(1, len(x))):`
`j = _randbelow(i + 1); x[i], x[j] = x[j], x[i]`. -/
def shuffleGo : List Int → Nat → MTState → Option (List Int × MTState)
  | x, 0, s => some (x, s)
  | x, i + 1, s =>
    match randbelow (i + 2) rbFuel s with
    | none => none
    | some (j, s1) => shuffleGo (listSwap x (i + 1) j) i s1

/-- `random.shuffle(x)` as a function on the list and the generator state. -/
def pyShuffle (x : List Int) (s : MTState) : Option (List Int × MTState) :=
  shuffleGo x (x.length - 1) s

/-- `random.choice(seq)`: raises `IndexError` on an empty sequence (modelled
as `none`), else indexes by `_randbelow(len(seq))`. -/
def pyChoice (xs : List Int) (s : MTState) : Option (Int × MTState) :=
  match xs with
  | [] => none
  | _ :: _ =>
    match randbelow xs.length rbFuel s with
    | none => none
    | some (j, s1) => some (xs.get! j, s1)

/-! ## `simulate_race` (src/derby/logic.py) -/

/-- One event-log line: `f"Segment {idx}: Racer {leader} takes the lead"`. -/
def segLine (idx : Nat) (leader : Int) : String :=
  "Segment " ++ toString idx ++ ": Racer " ++ toString leader ++ " takes the lead"

/-- The segment loop of `simulate_race`: for each course segment pick a
leader by `rng.choice(placements)` and append a log line (`enumerate`
starts at 1). -/
def segGo (placements : List Int) : Nat → Nat → MTState → Option (List String × MTState)
  | 0, _, s => some ([], s)
  | n + 1, idx, s =>
    match pyChoice placements s with
    | none => none
    | some (leader, s1) =>
      match segGo placements n (idx + 1) s1 with
      | none => none
      | some (rest, s2) => some (segLine idx leader :: rest, s2)

/-- `simulate_race(race, seed)` with `race = {"racers": racers,
"course_segments": <segments many entries>}`.  Only the number of course
segments matters to the source.  A raised `IndexError` (`rng.choice` on an
empty placement list) is `none`. -/
def simulate_race (racers : List Int) (segments : Nat) (seed : Nat) :
    Option (List Int × List String) :=
  match pyShuffle racers (mtSeed seed) with
  | none => none
  | some (placements, s1) =>
    match segGo placements segments 1 s1 with
    | none => none
    | some (log, _) => some (placements, log)

/-! ## `calculate_odds` (src/derby/logic.py)

House edge and odds are Python floats in the source; they are modelled as
rationals here (every float the code manipulates is a rational number, and
no claim in scope depends on rounding).  Division is modelled by the guarded
`checkedDiv`, so "the function never divides by zero" is expressible: a
division by zero would surface as `none`. -/

/-- Division that records a division by zero instead of defaulting it. -/
def checkedDiv (a b : ℚ) : Option ℚ :=
  if b = 0 then none else some (a / b)

/-- `calculate_odds(racers, course_segments, house_edge)`: returns the
mapping from racer id to flat payout multiplier (`course_segments` is
ignored by the source).  The result pairs each id of the input, in order,
with `(1 - house_edge) / (1 / num)`; a division by zero anywhere would make
the result `none`. -/
def calculate_odds (racers : List Int) (house_edge : ℚ) : Option (List (Int × ℚ)) :=
  match racers with
  | [] => some []
  | _ :: _ =>
    match checkedDiv 1 (racers.length : ℚ) with
    | none => none
    | some base_prob =>
      match checkedDiv (1 - house_edge) base_prob with
      | none => none
      | some payout => some (racers.map fun r => (r, payout))

/-! ## The database state

Rows of the four tables the financial core touches (src/derby/models.py),
with the columns the core reads or writes.  A database state is the list of
rows of each table.  Session semantics: the model threads the current
(pending) state through each operation and records a snapshot of the state
at every `session.commit()` of the source; the snapshot list of an
operation is what that operation has durably committed, in order. -/

structure Racer where
  id : Int
  retired : Bool
deriving DecidableEq, Repr

structure Race where
  id : Int
  finished : Bool
deriving DecidableEq, Repr

structure Bet where
  id : Nat
  race_id : Int
  user_id : Int
  racer_id : Int
  amount : Int
deriving DecidableEq, Repr

structure Wallet where
  user_id : Int
  balance : Int
deriving DecidableEq, Repr

structure DBState where
  races : List Race
  racers : List Racer
  bets : List Bet
  wallets : List Wallet
deriving DecidableEq, Repr

/-- `session.get(Wallet, user_id)`: the wallet row of a user, if present. -/
def lookupWallet : List Wallet → Int → Option Wallet
  | [], _ => none
  | w :: ws, u => if w.user_id = u then some w else lookupWallet ws u

/-- The balance of a user's wallet row, if present. -/
def walletBalance (db : DBState) (u : Int) : Option Int :=
  (lookupWallet db.wallets u).map Wallet.balance

/-- `wallet.balance += amt` on the (unique) wallet row of user `u`. -/
def creditWallet : List Wallet → Int → Int → List Wallet
  | [], _, _ => []
  | w :: ws, u, amt =>
    if w.user_id = u then { w with balance := w.balance + amt } :: creditWallet ws u amt
    else w :: creditWallet ws u amt

/-- `session.add(Wallet(user_id=u, balance=bal))`: insert a wallet row. -/
def addWallet (db : DBState) (u bal : Int) : DBState :=
  { db with wallets := db.wallets ++ [⟨u, bal⟩] }

/-- `min(bet.racer_id for bet in bets)` (defined for non-empty `bets`). -/
def minRacerId : List Bet → Int
  | [] => 0
  | b :: rest => rest.foldl (fun m x => min m x.racer_id) b.racer_id

/-- The bets selected by `select(Bet).where(Bet.race_id == race_id)`. -/
def raceBets (db : DBState) (rid : Int) : List Bet :=
  db.bets.filter fun b => b.race_id = rid

/-- The winner settlement declares for a race: the lowest racer id among the
race's bets. -/
def winnerOf (db : DBState) (rid : Int) : Int :=
  minRacerId (raceBets db rid)

/-- The sum of the amounts of `u`'s bets, among `bets`, on racer `winner`. -/
def sumWin (winner : Int) (bets : List Bet) (u : Int) : Int :=
  ((bets.filter fun b => b.user_id = u ∧ b.racer_id = winner).map Bet.amount).sum

/-- The total amount user `u` has riding on the declared winner of a race. -/
def winSum (db : DBState) (rid u : Int) : Int :=
  sumWin (winnerOf db rid) (raceBets db rid) u

/-! ## `resolve_payouts` (src/derby/logic.py) -/

/-- The wallet-fetch step of the settlement loop: `session.get` and, on a
missing row, `Wallet(user_id=bet.user_id, balance=0)`; `session.add`;
`session.commit()` (recorded as a snapshot); `session.refresh`. -/
def ensureWallet (db : DBState) (u : Int) : DBState × List DBState :=
  match lookupWallet db.wallets u with
  | some _ => (db, [])
  | none =>
    let db1 := addWallet db u 0
    (db1, [db1])

/-- One iteration of the settlement loop: fetch-or-create the bettor's
wallet, credit `bet.amount * 2` when the bet is on the winning racer, and
`session.delete(bet)`. -/
def settleBet (winner : Int) (db : DBState) (b : Bet) : DBState × List DBState :=
  let r := ensureWallet db b.user_id
  let db1 :=
    if b.racer_id = winner then
      { r.1 with wallets := creditWallet r.1.wallets b.user_id (b.amount * 2) }
    else r.1
  ({ db1 with bets := db1.bets.filter fun x => x.id ≠ b.id }, r.2)

/-- The settlement loop over the selected bets, followed by the final
`session.commit()` (recorded as a snapshot). -/
def resolveLoop (winner : Int) : List Bet → DBState → List DBState → DBState × List DBState
  | [], db, commits => (db, commits ++ [db])
  | b :: rest, db, commits =>
    let r := settleBet winner db b
    resolveLoop winner rest r.1 (commits ++ r.2)

/-- `resolve_payouts(session, race_id)`: select the race's bets; if none,
return; declare the winner as the lowest `racer_id` among the bets; process
every bet; commit.  Returns the final state and the list of commit
snapshots. -/
def resolve_payouts (db : DBState) (race_id : Int) : DBState × List DBState :=
  match raceBets db race_id with
  | [] => (db, [])
  | b :: rest => resolveLoop (minRacerId (b :: rest)) (b :: rest) db []

/-! ## The `race bet` and `wallet` commands (src/cogs/derby.py) -/

/-- The result the command reports back to the invoking user. -/
inductive BetOutcome
  | noRace
  | racerNotFound
  | insufficient
  | placed
deriving DecidableEq, Repr

/-- `select(Race).where(Race.finished.is_(False)).order_by(Race.id)` then
`.first()`: the unfinished race with the least id. -/
def minUnfinished (races : List Race) : Option Race :=
  (races.filter fun r => !r.finished).foldl
    (fun acc r =>
      match acc with
      | none => some r
      | some a => if r.id < a.id then some r else some a)
    none

/-- A bet id not used by any existing row (autoincrement primary key). -/
def freshBetId (bets : List Bet) : Nat :=
  bets.foldl (fun m b => max m (b.id + 1)) 1

/-- `update_bet(session, bet_id, racer_id=..., amount=...)`. -/
def updateBetL (bets : List Bet) (bid : Nat) (racer amount : Int) : List Bet :=
  bets.map fun b => if b.id = bid then { b with racer_id := racer, amount := amount } else b

/-- `Derby.race_bet(context, racer_id, amount)` for the acting user `user`,
with configured default wallet balance `d`.  Mirrors src/cogs/derby.py
lines 97–149: resolve the next race and the active racers; reject when the
race or racer is unavailable; lazily create the wallet (committed by
`create_wallet`); refund any existing bet on this race in memory; on
`wallet.balance < amount` **commit** and report insufficient; otherwise
debit, commit, and create or update the bet row (committed by the
repository helper).  Returns the outcome, the final state, and the commit
snapshots. -/
def race_bet (db : DBState) (user racer_id amount d : Int) :
    BetOutcome × DBState × List DBState :=
  match minUnfinished db.races with
  | none => (.noRace, db, [])
  | some race =>
    let active := db.racers.filter fun r => !r.retired
    if active.isEmpty then (.noRace, db, [])
    else if ¬ (active.map Racer.id).contains racer_id then (.racerNotFound, db, [])
    else
      let w :=
        match lookupWallet db.wallets user with
        | some _ => (db, ([] : List DBState))
        | none =>
          let db1 := addWallet db user d
          (db1, [db1])
      let existing := w.1.bets.find? fun b => b.race_id = race.id ∧ b.user_id = user
      let db2 :=
        match existing with
        | some b => { w.1 with wallets := creditWallet w.1.wallets user b.amount }
        | none => w.1
      let bal := match lookupWallet db2.wallets user with
        | some wlt => wlt.balance
        | none => 0
      if bal < amount then (.insufficient, db2, w.2 ++ [db2])
      else
        let db3 := { db2 with wallets := creditWallet db2.wallets user (-amount) }
        match existing with
        | none =>
          let nb : Bet := ⟨freshBetId db3.bets, race.id, user, racer_id, amount⟩
          let db4 := { db3 with bets := db3.bets ++ [nb] }
          (.placed, db4, w.2 ++ [db3, db4])
        | some b =>
          let db4 := { db3 with bets := updateBetL db3.bets b.id racer_id amount }
          (.placed, db4, w.2 ++ [db3, db4])

/-- The `wallet` command: fetch the wallet, lazily creating it with the
configured default balance `d`; report the balance. -/
def wallet_cmd (db : DBState) (user d : Int) : Int × DBState × List DBState :=
  match lookupWallet db.wallets user with
  | some w => (w.balance, db, [])
  | none => (d, addWallet db user d, [addWallet db user d])

/-! ## `_stream_commentary` (src/derby/scheduler.py)

Each `send_next` call first re-checks race existence (`repo.get_race`); on a
deleted race it cancels the timer loop and stops; then it takes the next
event, stopping (and cancelling) on exhaustion; then it sends, stopping (and
cancelling) on delivery failure.  `alive n` is whether the race row still
exists at the n-th check; `sendOk n` whether the n-th delivery succeeds.
The returned Boolean records that the timer resource was cancelled/never
started on the taken exit path. -/

def streamGo (alive sendOk : Nat → Bool) : Nat → List String → List String × Bool
  | n, rem =>
    if alive n then
      match rem with
      | [] => ([], true)
      | e :: rest =>
        if sendOk n then
          let r := streamGo alive sendOk (n + 1) rest
          (e :: r.1, r.2)
        else ([], true)
    else ([], true)

/-- `_stream_commentary(race_id, guild_id, log, delay)`, as the sequence of
events the sink observes together with the timer-released flag. -/
def streamCommentary (alive sendOk : Nat → Bool) (log : List String) : List String × Bool :=
  streamGo alive sendOk 0 log

/-- The number of leading checks from `start` (among the next `m`) at which
the race still exists. -/
def aliveRun (alive : Nat → Bool) : Nat → Nat → Nat
  | _, 0 => 0
  | start, m + 1 => if alive start then aliveRun alive (start + 1) m + 1 else 0

/-! ## Concrete scenario states used by evaluation theorems -/

/-- One open race, one active racer; user 5 holds an active 10-coin bet on
race 1 and a wallet of 5 coins. -/
def dbRebet : DBState :=
  ⟨[⟨1, false⟩], [⟨7, false⟩], [⟨1, 1, 5, 7, 10⟩], [⟨5, 5⟩]⟩

/-- One open race, one active racer, no bets, no wallets. -/
def dbFresh : DBState :=
  ⟨[⟨1, false⟩], [⟨7, false⟩], [], []⟩

/-- The settlement scenario of the repository's own `test_resolve_payouts`:
bets {racer 1: 10 by user 1, racer 2: 20 by user 2} on race 1; user 1 has a
wallet of 50, user 2 has no wallet. -/
def dbTwoBets : DBState :=
  ⟨[⟨1, true⟩], [], [⟨1, 1, 1, 1, 10⟩, ⟨2, 1, 2, 2, 20⟩], [⟨1, 50⟩]⟩

/-- As `dbTwoBets`, but every bettor already has a wallet row. -/
def dbTwoWallets : DBState :=
  ⟨[⟨1, true⟩], [], [⟨1, 1, 1, 1, 10⟩, ⟨2, 1, 2, 2, 20⟩], [⟨1, 50⟩, ⟨2, 10⟩]⟩

/-! # Supporting lemmas -/

theorem pseq_eq {α : Type} (n : Nat) (k : Nat → α) : pseq n k = k n := by
  cases n <;> rfl

theorem lookupWallet_creditWallet (ws : List Wallet) (u amt v : Int) :
    lookupWallet (creditWallet ws u amt) v =
      if v = u then
        (lookupWallet ws v).map fun w => { w with balance := w.balance + amt }
      else lookupWallet ws v := by
  induction ws with
  | nil => simp [creditWallet, lookupWallet]
  | cons w ws ih =>
    simp only [creditWallet, lookupWallet]
    rcases eq_or_ne v u with hv | hv
    · subst hv
      by_cases hwu : w.user_id = v
      · simp [hwu, lookupWallet]
      · simp [hwu, lookupWallet, ih]
    · by_cases hwu : w.user_id = u
      · have hwv : ¬ w.user_id = v := by rw [hwu]; exact fun h => hv h.symm
        have huv : ¬ u = v := fun h => hv h.symm
        simp [hwu, hwv, lookupWallet, ih, hv, huv]
      · by_cases hwv : w.user_id = v
        · simp [hwu, hwv, lookupWallet, hv]
        · simp [hwu, hwv, lookupWallet, ih, hv]

theorem lookupWallet_append (ws : List Wallet) (u bal v : Int) :
    lookupWallet (ws ++ [⟨u, bal⟩]) v =
      match lookupWallet ws v with
      | some w => some w
      | none => if u = v then some ⟨u, bal⟩ else none := by
  induction ws with
  | nil => simp [lookupWallet]
  | cons w ws ih =>
    simp only [List.cons_append, lookupWallet]
    by_cases hwv : w.user_id = v <;> simp_all

theorem ensureWallet_db (db : DBState) (u : Int) :
    (ensureWallet db u).1 =
      match lookupWallet db.wallets u with
      | some _ => db
      | none => addWallet db u 0 := by
  unfold ensureWallet
  split <;> simp_all

theorem settleBet_races (winner : Int) (db : DBState) (b : Bet) :
    (settleBet winner db b).1.races = db.races := by
  unfold settleBet ensureWallet
  split <;> split <;> simp [addWallet]

theorem settleBet_racers (winner : Int) (db : DBState) (b : Bet) :
    (settleBet winner db b).1.racers = db.racers := by
  unfold settleBet ensureWallet
  split <;> split <;> simp [addWallet]

theorem settleBet_bets (winner : Int) (db : DBState) (b : Bet) :
    (settleBet winner db b).1.bets = db.bets.filter fun x => x.id ≠ b.id := by
  unfold settleBet ensureWallet
  split <;> split <;> simp [addWallet]

theorem settleBet_walletBalance (winner : Int) (db : DBState) (b : Bet) (u : Int) :
    walletBalance (settleBet winner db b).1 u =
      if u = b.user_id then
        some ((walletBalance db u).getD 0 + if b.racer_id = winner then b.amount * 2 else 0)
      else walletBalance db u := by
  unfold settleBet
  rcases hlw : lookupWallet db.wallets b.user_id with _ | w
  · -- missing wallet: created with balance 0
    simp only [ensureWallet, hlw]
    rcases hwin : decide (b.racer_id = winner) with _ | _
    · have hwin' : ¬ b.racer_id = winner := of_decide_eq_false hwin
      simp only [walletBalance, addWallet, hwin', if_false]
      rcases eq_or_ne u b.user_id with hu | hu
      · subst hu
        simp [lookupWallet_append, hlw]
      · have : ¬ b.user_id = u := fun h => hu h.symm
        simp [lookupWallet_append, hu, this]
        split <;> simp_all
    · have hwin' : b.racer_id = winner := of_decide_eq_true hwin
      simp only [walletBalance, addWallet, hwin', if_true]
      rcases eq_or_ne u b.user_id with hu | hu
      · subst hu
        simp [lookupWallet_creditWallet, lookupWallet_append, hlw]
      · have : ¬ b.user_id = u := fun h => hu h.symm
        simp [lookupWallet_creditWallet, lookupWallet_append, hu, this]
        split <;> simp_all
  · -- wallet present
    simp only [ensureWallet, hlw]
    rcases hwin : decide (b.racer_id = winner) with _ | _
    · have hwin' : ¬ b.racer_id = winner := of_decide_eq_false hwin
      simp only [walletBalance, hwin', if_false]
      rcases eq_or_ne u b.user_id with hu | hu
      · subst hu
        simp [hlw]
      · simp [hu]
    · have hwin' : b.racer_id = winner := of_decide_eq_true hwin
      simp only [walletBalance, hwin', if_true]
      rcases eq_or_ne u b.user_id with hu | hu
      · subst hu
        simp [lookupWallet_creditWallet, hlw]
      · simp [lookupWallet_creditWallet, hu]

theorem sumWin_cons (winner : Int) (b : Bet) (rest : List Bet) (u : Int) :
    sumWin winner (b :: rest) u =
      (if b.user_id = u ∧ b.racer_id = winner then b.amount else 0) + sumWin winner rest u := by
  unfold sumWin
  by_cases h : b.user_id = u ∧ b.racer_id = winner <;> simp [List.filter_cons, h]

theorem resolveLoop_races (winner : Int) :
    ∀ (bets : List Bet) (db : DBState) (commits : List DBState),
      (resolveLoop winner bets db commits).1.races = db.races := by
  intro bets
  induction bets with
  | nil => intro db commits; simp [resolveLoop]
  | cons b rest ih =>
    intro db commits
    simp only [resolveLoop]
    rw [ih]
    exact settleBet_races winner db b

theorem resolveLoop_racers (winner : Int) :
    ∀ (bets : List Bet) (db : DBState) (commits : List DBState),
      (resolveLoop winner bets db commits).1.racers = db.racers := by
  intro bets
  induction bets with
  | nil => intro db commits; simp [resolveLoop]
  | cons b rest ih =>
    intro db commits
    simp only [resolveLoop]
    rw [ih]
    exact settleBet_racers winner db b

theorem resolveLoop_bets (winner : Int) :
    ∀ (bets : List Bet) (db : DBState) (commits : List DBState),
      (resolveLoop winner bets db commits).1.bets =
        db.bets.filter fun x => x.id ∉ bets.map Bet.id := by
  intro bets
  induction bets with
  | nil => intro db commits; simp [resolveLoop]
  | cons b rest ih =>
    intro db commits
    simp only [resolveLoop]
    rw [ih, settleBet_bets, List.filter_filter]
    apply List.filter_congr
    intro x _
    by_cases hxb : x.id = b.id <;> by_cases hxm : x.id ∈ rest.map Bet.id <;>
      simp [hxb, hxm]

theorem resolveLoop_walletBalance (winner : Int) :
    ∀ (bets : List Bet) (db : DBState) (commits : List DBState) (u : Int),
      walletBalance (resolveLoop winner bets db commits).1 u =
        match walletBalance db u with
        | some bal => some (bal + sumWin winner bets u * 2)
        | none =>
          if bets.any (fun b => b.user_id = u) then some (sumWin winner bets u * 2)
          else none := by
  intro bets
  induction bets with
  | nil =>
    intro db commits u
    simp only [resolveLoop, sumWin, List.filter_nil, List.map_nil, List.sum_nil,
      List.any_nil]
    cases walletBalance db u <;> simp
  | cons b rest ih =>
    intro db commits u
    simp only [resolveLoop]
    rw [ih, settleBet_walletBalance, sumWin_cons]
    rcases eq_or_ne u b.user_id with hu | hu
    · have hbu : b.user_id = u := hu.symm
      simp only [if_pos hu, List.any_cons, hbu, decide_true_eq_true, Bool.true_or]
      cases hb : walletBalance db u with
      | none =>
        simp only [hb, Option.getD_none]
        split_ifs with h1 h2 h2 <;> simp_all <;> ring
      | some bal =>
        simp only [hb, Option.getD_some]
        split_ifs with h1 h2 h2 <;> simp_all <;> ring
    · have hbu : ¬ b.user_id = u := fun h => hu h.symm
      simp only [if_neg hu]
      simp [hbu]

theorem settleBet_snd (winner : Int) (db : DBState) (b : Bet) :
    (settleBet winner db b).2 = (ensureWallet db b.user_id).2 := rfl

theorem ensureWallet_snd_of_isSome (db : DBState) (u : Int)
    (h : (lookupWallet db.wallets u).isSome = true) :
    (ensureWallet db u).2 = [] := by
  obtain ⟨w, hw⟩ := Option.isSome_iff_exists.mp h
  simp [ensureWallet, hw]

theorem walletBalance_isSome (db : DBState) (u : Int) :
    (walletBalance db u).isSome = (lookupWallet db.wallets u).isSome := by
  simp [walletBalance]

theorem settleBet_wallet_isSome (winner : Int) (db : DBState) (b : Bet) (u : Int)
    (h : (lookupWallet db.wallets u).isSome = true) :
    (lookupWallet (settleBet winner db b).1.wallets u).isSome = true := by
  rw [← walletBalance_isSome] at h ⊢
  rw [settleBet_walletBalance]
  split
  · simp
  · exact h

theorem resolveLoop_commits (winner : Int) :
    ∀ (bets : List Bet) (db : DBState) (commits : List DBState),
      (∀ b ∈ bets, (lookupWallet db.wallets b.user_id).isSome = true) →
      (resolveLoop winner bets db commits).2 =
        commits ++ [(resolveLoop winner bets db commits).1] := by
  intro bets
  induction bets with
  | nil => intro db commits _; simp [resolveLoop]
  | cons b rest ih =>
    intro db commits h
    have hb := h b (List.mem_cons_self b rest)
    have hsnd : (settleBet winner db b).2 = [] :=
      (settleBet_snd winner db b).trans (ensureWallet_snd_of_isSome db b.user_id hb)
    simp only [resolveLoop, hsnd, List.append_nil]
    exact ih (settleBet winner db b).1 commits fun x hx =>
      settleBet_wallet_isSome winner db b x.user_id (h x (List.mem_cons_of_mem b hx))

theorem resolve_payouts_of_empty (db : DBState) (rid : Int) (h : raceBets db rid = []) :
    resolve_payouts db rid = (db, []) := by
  unfold resolve_payouts
  simp [h]

theorem resolve_payouts_eq_loop (db : DBState) (rid : Int) (h : raceBets db rid ≠ []) :
    resolve_payouts db rid = resolveLoop (winnerOf db rid) (raceBets db rid) db [] := by
  unfold resolve_payouts winnerOf
  rcases hr : raceBets db rid with _ | ⟨b, rest⟩
  · exact absurd hr h
  · simp

theorem filter_not_mem_ids (db : DBState) (rid : Int)
    (hids : (db.bets.map Bet.id).Nodup) :
    (db.bets.filter fun x => x.id ∉ (raceBets db rid).map Bet.id) =
      db.bets.filter fun b => ¬ b.race_id = rid := by
  apply List.filter_congr
  intro x hx
  rw [decide_eq_decide]
  constructor
  · intro hnm hrid
    exact hnm (List.mem_map_of_mem Bet.id (List.mem_filter.mpr ⟨hx, by simp [hrid]⟩))
  · intro hnr hm
    obtain ⟨y, hy, hyx⟩ := List.mem_map.mp hm
    have hy' := List.mem_filter.mp hy
    have : y = x := List.inj_on_of_nodup_map hids hy'.1 hx hyx
    exact hnr (by rw [← this]; exact of_decide_eq_true hy'.2)

theorem resolve_payouts_clears (db : DBState) (rid : Int) :
    raceBets (resolve_payouts db rid).1 rid = [] := by
  rcases hr : raceBets db rid with _ | ⟨b, rest⟩
  · rw [resolve_payouts_of_empty db rid hr]
    exact hr
  · have hne : raceBets db rid ≠ [] := by rw [hr]; simp
    rw [resolve_payouts_eq_loop db rid hne]
    unfold raceBets
    rw [resolveLoop_bets, List.filter_filter]
    rw [List.filter_eq_nil_iff]
    intro x hx
    simp only [Bool.and_eq_true, decide_eq_true_eq, not_and]
    intro hrid
    exact not_not.mpr
      (List.mem_map_of_mem Bet.id (List.mem_filter.mpr ⟨hx, by simp [hrid]⟩))

theorem streamGo_spec (alive : Nat → Bool) :
    ∀ (log : List String) (n : Nat),
      streamGo alive (fun _ => true) n log =
        (log.take (aliveRun alive n log.length), true) := by
  intro log
  induction log with
  | nil =>
    intro n
    unfold streamGo
    cases halive : alive n <;> simp [halive, aliveRun]
  | cons e rest ih =>
    intro n
    unfold streamGo
    cases halive : alive n
    · simp [halive, aliveRun]
    · simp only [halive, if_true, ite_true, ih, aliveRun, List.length_cons]
      simp [halive]

set_option linter.unnecessarySeqFocus false in
theorem race_bet_commits_head (db : DBState) (user racer_id amount d : Int) (race : Race)
    (hrace : minUnfinished db.races = some race)
    (hact : (db.racers.filter fun r => !r.retired).isEmpty = false)
    (hracer : ((db.racers.filter fun r => !r.retired).map Racer.id).contains racer_id = true)
    (hnw : lookupWallet db.wallets user = none) :
    (race_bet db user racer_id amount d).2.2.head? = some (addWallet db user d) := by
  unfold race_bet
  rw [hrace]
  simp only [hact, hracer, hnw, Bool.false_eq_true, if_false, not_true_eq_false,
    if_neg, decide_eq_true_eq]
  split <;> simp <;> split <;> simp

theorem walletBalance_addWallet_self (db : DBState) (u d : Int)
    (hnw : lookupWallet db.wallets u = none) :
    walletBalance (addWallet db u d) u = some d := by
  simp [walletBalance, addWallet, lookupWallet_append, hnw]

theorem resolve_created_wallet (db : DBState) (rid u : Int)
    (hnw : lookupWallet db.wallets u = none)
    (hbet : (raceBets db rid).any (fun b => b.user_id = u) = true) :
    walletBalance (resolve_payouts db rid).1 u = some (winSum db rid u * 2) := by
  have hne : raceBets db rid ≠ [] := by
    intro h
    rw [h] at hbet
    simp at hbet
  rw [resolve_payouts_eq_loop db rid hne, resolveLoop_walletBalance]
  have hwb : walletBalance db u = none := by simp [walletBalance, hnw]
  rw [hwb]
  simp [hbet, winSum]

theorem aliveRun_le_of_dead (alive : Nat → Bool) :
    ∀ (m n k : Nat), alive (n + k) = false → aliveRun alive n m ≤ k := by
  intro m
  induction m with
  | zero => intro n k _; simp [aliveRun]
  | succ m ih =>
    intro n k hdead
    unfold aliveRun
    cases halive : alive n
    · simp
    · simp only [if_true, ite_true]
      cases k with
      | zero =>
        rw [Nat.add_zero] at hdead
        rw [halive] at hdead
        exact absurd hdead (by simp)
      | succ k' =>
        have : alive (n + 1 + k') = false := by
          rw [show n + 1 + k' = n + (k' + 1) by omega]
          exact hdead
        exact Nat.succ_le_succ (ih (n + 1) k' this)

/-! # Claim theorems -/

/-- C1.  For every race with at least one bet, `resolve_payouts` declares
the winner to be the minimum racer identifier among that race's bets
(`winSum` is defined from `winnerOf`, the `minRacerId` of the race's bets),
credits each bettor `2 × amount` for every bet on the winner and nothing
for any other bet (a bettor's balance changes by exactly twice the total
they had riding on the winner; a bettor with no wallet row gets one created
at 0 and then credited), deletes every bet of the race and no other bet,
and touches no other table; for a race with no bets it is a no-op, and
re-invoking it on an already-settled race is again a no-op. -/
theorem C1_resolve_payouts_settlement (db : DBState) (rid : Int)
    (hids : (db.bets.map Bet.id).Nodup) :
    (raceBets db rid = [] → resolve_payouts db rid = (db, [])) ∧
    (raceBets db rid ≠ [] →
      (resolve_payouts db rid).1.races = db.races ∧
      (resolve_payouts db rid).1.racers = db.racers ∧
      (resolve_payouts db rid).1.bets = (db.bets.filter fun b => ¬ b.race_id = rid) ∧
      (∀ u : Int,
        walletBalance (resolve_payouts db rid).1 u =
          match walletBalance db u with
          | some bal => some (bal + winSum db rid u * 2)
          | none =>
            if (raceBets db rid).any (fun b => b.user_id = u) then
              some (winSum db rid u * 2)
            else none)) ∧
    resolve_payouts (resolve_payouts db rid).1 rid = ((resolve_payouts db rid).1, []) := by
  refine ⟨resolve_payouts_of_empty db rid, fun hne => ?_,
    resolve_payouts_of_empty _ _ (resolve_payouts_clears db rid)⟩
  rw [resolve_payouts_eq_loop db rid hne]
  refine ⟨resolveLoop_races _ _ _ _, resolveLoop_racers _ _ _ _, ?_, ?_⟩
  · rw [resolveLoop_bets, filter_not_mem_ids db rid hids]
  · intro u
    rw [resolveLoop_walletBalance]
    rfl

/-- Witness for C1 at the settlement scenario of the repository's own test
(`dbTwoBets`, race 1). -/
theorem C1_resolve_payouts_settlement_witness :
    (dbTwoBets.bets.map Bet.id).Nodup ∧
    ((raceBets dbTwoBets 1 = [] → resolve_payouts dbTwoBets 1 = (dbTwoBets, [])) ∧
     (raceBets dbTwoBets 1 ≠ [] →
       (resolve_payouts dbTwoBets 1).1.races = dbTwoBets.races ∧
       (resolve_payouts dbTwoBets 1).1.racers = dbTwoBets.racers ∧
       (resolve_payouts dbTwoBets 1).1.bets =
         (dbTwoBets.bets.filter fun b => ¬ b.race_id = 1) ∧
       (∀ u : Int,
         walletBalance (resolve_payouts dbTwoBets 1).1 u =
           match walletBalance dbTwoBets u with
           | some bal => some (bal + winSum dbTwoBets 1 u * 2)
           | none =>
             if (raceBets dbTwoBets 1).any (fun b => b.user_id = u) then
               some (winSum dbTwoBets 1 u * 2)
             else none)) ∧
     resolve_payouts (resolve_payouts dbTwoBets 1).1 1 =
       ((resolve_payouts dbTwoBets 1).1, [])) :=
  ⟨by decide, C1_resolve_payouts_settlement dbTwoBets 1 (by decide)⟩

/-- C2.  Claimed: on a rebet whose new amount exceeds the post-refund
balance, no state change is committed.  The code instead commits the
in-memory refund before reporting the failure: user 5, balance 5, active
10-coin bet, new 30-coin bet → outcome "insufficient" but the committed
balance is 15 while the prior bet row is untouched; a second identical
attempt commits 25, so repeated failed rebets mint the prior amount each
time. -/
theorem C2_rebet_failure_commits_refund :
    (race_bet dbRebet 5 7 30 100).1 = BetOutcome.insufficient ∧
    (race_bet dbRebet 5 7 30 100).2.1.bets = dbRebet.bets ∧
    walletBalance (race_bet dbRebet 5 7 30 100).2.1 5 = some 15 ∧
    (race_bet dbRebet 5 7 30 100).2.2 = [(race_bet dbRebet 5 7 30 100).2.1] ∧
    walletBalance (race_bet (race_bet dbRebet 5 7 30 100).2.1 5 7 30 100).2.1 5 =
      some 25 := by
  decide

/-- C4.  Claimed: every committed wallet balance is non-negative.  Because
`race_bet` never validates the amount, a fresh user may bet `-200` (the
debit then credits 200, committing balance 300 and a `-200` bet row);
settling that race credits `2 × (-200)`, committing balance `-100 < 0`. -/
theorem C4_committed_negative_balance :
    (race_bet dbFresh 5 7 (-200) 100).1 = BetOutcome.placed ∧
    walletBalance (race_bet dbFresh 5 7 (-200) 100).2.1 5 = some 300 ∧
    walletBalance (resolve_payouts (race_bet dbFresh 5 7 (-200) 100).2.1 1).1 5 =
      some (-100) ∧
    (resolve_payouts (race_bet dbFresh 5 7 (-200) 100).2.1 1).2 =
      [(resolve_payouts (race_bet dbFresh 5 7 (-200) 100).2.1 1).1] ∧
    (-100 : Int) < 0 := by
  decide

/-- C5.  Claimed: with zero participants the simulation returns empty
placements and an empty log and never raises.  The code only does so when
the segment count is zero; with zero participants and at least one course
segment, `rng.choice(placements)` raises `IndexError` (modelled as `none`)
for every seed. -/
theorem C5_simulate_race_empty_participants :
    (∀ seed : Nat, simulate_race [] 0 seed = some ([], [])) ∧
    (∀ (seed segments : Nat), simulate_race [] (segments + 1) seed = none) :=
  ⟨fun _ => rfl, fun _ _ => rfl⟩

set_option maxRecDepth 100000 in
set_option exponentiation.threshold 100000 in
set_option maxHeartbeats 4000000 in
/-- C6.  The simulation is a pure function of (participants, segment count,
seed) — two invocations agree definitionally — and on participants
`[1, 2, 3]`, 2 segments, seed 123 it yields placements `[3, 2, 1]` and the
two reference log lines, computed through the embedded MT19937 generator,
CPython seeding, `shuffle` and `choice`. -/
theorem C6_simulate_race_deterministic_reference :
    (∀ (racers : List Int) (segments seed : Nat),
        simulate_race racers segments seed = simulate_race racers segments seed) ∧
    simulate_race [1, 2, 3] 2 123 =
      some ([3, 2, 1],
        ["Segment 1: Racer 3 takes the lead", "Segment 2: Racer 2 takes the lead"]) :=
  ⟨fun _ _ _ => rfl, by decide⟩

/-- C7.  Claimed: a non-positive bet amount is rejected with InvalidAmount
and nothing changes.  The command performs no amount validation: a fresh
user betting `-5` (default wallet 100) gets outcome "placed", a bet row of
amount `-5`, and a committed balance of 105; a zero bet is likewise
accepted. -/
theorem C7_non_positive_bet_accepted :
    (race_bet dbFresh 5 7 (-5) 100).1 = BetOutcome.placed ∧
    (race_bet dbFresh 5 7 (-5) 100).2.1.bets = [⟨1, 1, 5, 7, -5⟩] ∧
    walletBalance (race_bet dbFresh 5 7 (-5) 100).2.1 5 = some 105 ∧
    (race_bet dbFresh 5 7 0 100).1 = BetOutcome.placed := by
  decide

/-- C10.  `calculate_odds` on the empty racer sequence returns the empty
mapping for every house edge, and performs no division at all on that path
(a division by zero would surface as `none`). -/
theorem C10_calculate_odds_empty (house_edge : ℚ) :
    calculate_odds [] house_edge = some [] := rfl

/-- C3 counterexample.  In the test scenario `dbTwoBets` (bettor 2 has no
wallet row), settlement commits twice, and the first committed state is
partial: bet 1 is already deleted and wallet 1 already credited to 70,
while bet 2 of the same race is still present. -/
theorem C3_settlement_partial_commit :
    (resolve_payouts dbTwoBets 1).2 =
      [⟨[⟨1, true⟩], [], [⟨2, 1, 2, 2, 20⟩], [⟨1, 70⟩, ⟨2, 0⟩]⟩,
       ⟨[⟨1, true⟩], [], [], [⟨1, 70⟩, ⟨2, 0⟩]⟩] ∧
    ¬ (resolve_payouts dbTwoBets 1).2.length ≤ 1 ∧
    raceBets dbTwoBets 1 ≠ [] := by
  decide

/-- C3 as amended.  When every bettor of the race already has a wallet row,
all credits and deletions of one settlement call commit as a single
transaction: the commit trace is exactly the one final state (and is empty
for a race with no bets).  The mid-loop commit of the counterexample can
only come from the lazy wallet creation. -/
theorem C3_settlement_single_commit (db : DBState) (rid : Int)
    (h : ∀ b ∈ raceBets db rid, (lookupWallet db.wallets b.user_id).isSome = true) :
    (resolve_payouts db rid).2 =
      if raceBets db rid = [] then [] else [(resolve_payouts db rid).1] := by
  by_cases hne : raceBets db rid = []
  · simp [hne, resolve_payouts_of_empty db rid hne]
  · rw [if_neg hne, resolve_payouts_eq_loop db rid hne]
    exact (resolveLoop_commits _ _ _ _ h).trans (by simp)

/-- Witness for C3 as amended, at `dbTwoWallets` where both bettors hold
wallet rows. -/
theorem C3_settlement_single_commit_witness :
    (∀ b ∈ raceBets dbTwoWallets 1,
        (lookupWallet dbTwoWallets.wallets b.user_id).isSome = true) ∧
    (resolve_payouts dbTwoWallets 1).2 =
      if raceBets dbTwoWallets 1 = [] then [] else [(resolve_payouts dbTwoWallets 1).1] :=
  ⟨by decide, C3_settlement_single_commit dbTwoWallets 1 (by decide)⟩

/-- C8 counterexample.  User 2's first financial interaction is receiving
settlement processing in `dbTwoBets`; the wallet created for them has
balance 0, not the configured default (100 in the shipped configuration and
tests). -/
theorem C8_settlement_wallet_not_default :
    walletBalance (resolve_payouts dbTwoBets 1).1 2 = some 0 ∧ (0 : Int) ≠ 100 := by
  decide

/-- C8 as amended.  Wallets created lazily by the `race bet` and `wallet`
commands start at the configured default balance `d` (the creation is the
first committed snapshot of the bet command); a wallet created lazily by
settlement starts at balance 0, so the bettor ends settlement with exactly
twice the amount they had on the winner — 0, not the default, when they
lose. -/
theorem C8_lazy_wallet_default :
    (∀ (db : DBState) (user racer_id amount d : Int) (race : Race),
        minUnfinished db.races = some race →
        (db.racers.filter fun r => !r.retired).isEmpty = false →
        ((db.racers.filter fun r => !r.retired).map Racer.id).contains racer_id = true →
        lookupWallet db.wallets user = none →
        (race_bet db user racer_id amount d).2.2.head? = some (addWallet db user d) ∧
        walletBalance (addWallet db user d) user = some d) ∧
    (∀ (db : DBState) (user d : Int),
        lookupWallet db.wallets user = none →
        wallet_cmd db user d = (d, addWallet db user d, [addWallet db user d]) ∧
        walletBalance (addWallet db user d) user = some d) ∧
    (∀ (db : DBState) (rid u : Int),
        lookupWallet db.wallets u = none →
        (raceBets db rid).any (fun b => b.user_id = u) = true →
        walletBalance (resolve_payouts db rid).1 u = some (winSum db rid u * 2)) := by
  refine ⟨fun db user racer_id amount d race h1 h2 h3 h4 =>
      ⟨race_bet_commits_head db user racer_id amount d race h1 h2 h3 h4,
       walletBalance_addWallet_self db user d h4⟩,
    fun db user d h =>
      ⟨by simp [wallet_cmd, h], walletBalance_addWallet_self db user d h⟩,
    fun db rid u h1 h2 => resolve_created_wallet db rid u h1 h2⟩

/-- Witness for C8 as amended: a fresh user placing a 20-coin bet in
`dbFresh` with default 100 has the wallet-creation commit at balance 100. -/
theorem C8_lazy_wallet_default_witness :
    (minUnfinished dbFresh.races = some ⟨1, false⟩ ∧
     lookupWallet dbFresh.wallets 5 = none) ∧
    ((race_bet dbFresh 5 7 20 100).2.2.head? = some (addWallet dbFresh 5 100) ∧
     walletBalance (addWallet dbFresh 5 100) 5 = some 100) :=
  ⟨⟨by decide, by decide⟩,
    C8_lazy_wallet_default.1 dbFresh 5 7 20 100 ⟨1, false⟩ (by decide) (by decide)
      (by decide) (by decide)⟩

/-- C9.  During commentary streaming with a sink that accepts every
delivery, if the race row is deleted before check `k` with `k` inside the
log, the sink observes exactly the prefix of the log up to the first check
at which the race no longer exists (`aliveRun`), in log order; that is
strictly fewer events than the full log, and the timer resource is
released. -/
theorem C9_commentary_stops_on_deletion (alive : Nat → Bool) (log : List String)
    (k : Nat) (hk : k < log.length) (hdead : alive k = false) :
    streamCommentary alive (fun _ => true) log =
      (log.take (aliveRun alive 0 log.length), true) ∧
    (streamCommentary alive (fun _ => true) log).1.length < log.length := by
  have h := streamGo_spec alive log 0
  refine ⟨h, ?_⟩
  have hbound : aliveRun alive 0 log.length ≤ k :=
    aliveRun_le_of_dead alive log.length 0 k (by simpa using hdead)
  rw [show streamCommentary alive (fun _ => true) log =
      (log.take (aliveRun alive 0 log.length), true) from h]
  simp only [List.length_take]
  omega

/-- Witness for C9: log `["A", "B", "C"]` with the race deleted from check 1
on; exactly `["A"]` is observed. -/
theorem C9_commentary_stops_on_deletion_witness :
    (1 < (["A", "B", "C"] : List String).length ∧
      (fun n => decide (n < 1)) 1 = false) ∧
    (streamCommentary (fun n => decide (n < 1)) (fun _ => true) ["A", "B", "C"] =
      (["A", "B", "C"].take
        (aliveRun (fun n => decide (n < 1)) 0 (["A", "B", "C"] : List String).length),
       true) ∧
     (streamCommentary (fun n => decide (n < 1)) (fun _ => true) ["A", "B", "C"]).1.length <
       (["A", "B", "C"] : List String).length) :=
  ⟨⟨by decide, by decide⟩,
    C9_commentary_stops_on_deletion (fun n => decide (n < 1)) ["A", "B", "C"] 1
      (by decide) (by decide)⟩
